import Mathlib

/-!
Shallow embedding of the TranslateApp translation-quality-rating program
(`app.py`, `quality.py`) and proofs about its specification claims.

Python dicts are modelled as association lists with Python's assignment
semantics (replace in place when present, append otherwise); slider/rating
values are integers; weights and scores are exact rationals.
-/

namespace TranslateApp

/-- A per-dimension rating dict `{"y1": int, "y2": int}`; each field is
optional because the aggregation code reads it with `.get(cand, 0)`. -/
structure Rating where
  y1 : Option Int
  y2 : Option Int
deriving DecidableEq, Repr

/-- One of the two candidate translations. -/
inductive Candidate
  | y1
  | y2
deriving DecidableEq, Repr

/-- The value a rating dict holds for a candidate, if present. -/
def Rating.val (r : Rating) : Candidate → Option Int
  | .y1 => r.y1
  | .y2 => r.y2

/-- A quality dimension from `quality.py`: name, weight, inclusive range. -/
structure Quality where
  name : String
  weight : Rat
  rmin : Int
  rmax : Int
deriving DecidableEq, Repr

/-- `ExampleRatingSet`: Python dict from dimension name to rating. -/
abbrev RatingDict := List (String × Rating)

/-- `RatingTable` (`st.session_state.all_ratings`): dict from example index
to its rating set. -/
abbrev RatingTable := List (Nat × RatingDict)

/-- Python dict lookup `d.get(k)` on an association list. -/
def lookupAL {α β : Type} [DecidableEq α] : List (α × β) → α → Option β
  | [], _ => none
  | (k', v) :: rest, k => if k' = k then some v else lookupAL rest k

/-- Python dict assignment `d[k] = v`: replace in place if the key is
present, append at the end otherwise. -/
def insertAL {α β : Type} [DecidableEq α] : List (α × β) → α → β → List (α × β)
  | [], k, v => [(k, v)]
  | (k', v') :: rest, k, v =>
      if k' = k then (k, v) :: rest else (k', v') :: insertAL rest k v

/-- The shipped quality catalog of `quality.py` (name, weight, range). -/
def qualities : List Quality :=
  [ ⟨"Adequacy (Meaning Preservation)", 0.30, 1, 10⟩,
    ⟨"Fluency", 0.30, 1, 10⟩,
    ⟨"Grammatical Correctness", 0.20, 1, 10⟩,
    ⟨"Style Consistency", 0.10, 1, 10⟩,
    ⟨"Conciseness", 0.10, 1, 10⟩ ]

/-- `rating_dict[q_name].get(cand, 0)` for a dimension known to be present;
yields 0 when the name or the candidate key is absent. -/
def dictGet (d : RatingDict) (k : String) (c : Candidate) : Int :=
  match lookupAL d k with
  | some r => (r.val c).getD 0
  | none => 0

/-- The weighted per-example score of `app.py` line 286/287: the sum of
`q.weight * ratings[q.name].get(cand, 0)` over the catalog dimensions `q`
whose name is a key of `ratings`. -/
def weightedScore (qs : List Quality) (d : RatingDict) (c : Candidate) : Rat :=
  ((qs.filter (fun q => (lookupAL d q.name).isSome)).map
    (fun q => q.weight * ((dictGet d q.name c : Int) : Rat))).sum

/-- The inner loop of `calculate_average_scores` (app.py lines 70-79): the
running y1 total, y2 total, and the `has_valid_rating` flag. -/
def exampleTotals (qs : List Quality) (d : RatingDict) : Rat × Rat × Bool :=
  qs.foldl
    (fun acc q =>
      match lookupAL d q.name with
      | some r => (acc.1 + q.weight * ((r.y1.getD 0 : Int) : Rat),
                   acc.2.1 + q.weight * ((r.y2.getD 0 : Int) : Rat), true)
      | none => acc) (0, 0, false)

/-- Whether at least one catalog dimension name appears in the rating set
(the final value of `has_valid_rating`). -/
def hasValidRating (qs : List Quality) (d : RatingDict) : Bool :=
  qs.any (fun q => (lookupAL d q.name).isSome)

/-- One iteration of the outer loop of `calculate_average_scores`
(app.py lines 66-84), acting on `(sum_y1, sum_y2, num_examples_rated)`. -/
def calcStep (qs : List Quality) (acc : Rat × Rat × Nat) (p : Nat × RatingDict) :
    Rat × Rat × Nat :=
  if p.2 = [] then acc
  else
    let t := exampleTotals qs p.2
    if t.2.2 then (acc.1 + t.1, acc.2.1 + t.2.1, acc.2.2 + 1) else acc

/-- `calculate_average_scores` (app.py lines 59-93): average weighted scores
over rated examples, plus the rated-example count. -/
def calculate_average_scores (qs : List Quality) (ratings_data : RatingTable) :
    Rat × Rat × Nat :=
  let s := ratings_data.foldl (calcStep qs) (0, 0, 0)
  if s.2.2 > 0 then (s.1 / s.2.2, s.2.1 / s.2.2, s.2.2) else (0, 0, s.2.2)

/-! ### Submission pipeline (`save_to_firestore`, app.py lines 97-145, and
the Submit All button handler, lines 295-297) -/

/-- The validation failures of the submission pipeline. -/
inductive SubmitError
  | missingUsername
  | emptySubmission
deriving DecidableEq, Repr

/-- The Firestore document a successful submission writes
(app.py lines 120-134). -/
structure SavedDoc where
  doc_id : String
  username : String
  ratings : List (String × RatingDict)
deriving DecidableEq, Repr

/-- Python `str.strip()`: remove leading and trailing whitespace. -/
def pyStrip (s : String) : String :=
  ((s.data.dropWhile Char.isWhitespace).reverse.dropWhile
    Char.isWhitespace).reverse.asString

/-- `username.strip().replace(" ", "_").lower()` (app.py line 120).
Python's single-space-pattern `replace` acts character by character, and
`lower()` on ASCII letters is `Char.toLower`. -/
def username_underscored (u : String) : String :=
  (((pyStrip u).data.map (fun c => if c = ' ' then '_' else c)).map
    Char.toLower).asString

/-- `doc_id = f"{username_underscored}_{int(time.time())}"` (app.py
line 121); the current time is an integer number of seconds. -/
def doc_id_of (u : String) (now : Nat) : String :=
  username_underscored u ++ "_" ++ Nat.repr now

/-- `save_to_firestore` (app.py lines 97-136) as a pure function of the
username, the rating table, and the integer current time: validation
errors become `Except.error`; success carries the document written. -/
def save_to_firestore (username : String) (ratings_data : RatingTable)
    (now : Nat) : Except SubmitError SavedDoc :=
  if username = "" then .error .missingUsername
  else
    let valid_ratings :=
      (ratings_data.filter (fun p => ¬p.2 = [])).map (fun p => (Nat.repr p.1, p.2))
    if valid_ratings = [] then .error .emptySubmission
    else .ok ⟨doc_id_of username now, pyStrip username, valid_ratings⟩

/-- The full "Submit All Ratings" preparation (app.py lines 295-303): the
button handler rejects a whitespace-only username before
`save_to_firestore` runs. -/
def prepareSubmission (username : String) (table : RatingTable) (now : Nat) :
    Except SubmitError SavedDoc :=
  if pyStrip username = "" then .error .missingUsername
  else save_to_firestore username table now

/-! ### Navigation (app.py lines 219-230) -/

/-- `goPrevious`: decrement the index when it is positive, else no-op. -/
def goPrevious (idx : Nat) : Nat :=
  if idx > 0 then idx - 1 else idx

/-- `goNext`: increment the index when below `n - 1`, else no-op. -/
def goNext (n idx : Nat) : Nat :=
  if idx < n - 1 then idx + 1 else idx

/-- A navigation button press. -/
inductive NavAction
  | prev
  | next
deriving DecidableEq, Repr

/-- Apply one navigation action over `n` examples. -/
def applyNav (n idx : Nat) : NavAction → Nat
  | .prev => goPrevious idx
  | .next => goNext n idx

/-- Run a sequence of navigation actions from a starting index. -/
def runNav (n idx : Nat) (acts : List NavAction) : Nat :=
  acts.foldl (applyNav n) idx

/-! ### The rating form body (app.py lines 240-284)

On every script re-run while example `idx` is displayed, the form body
executes: `ratings_for_this_example = st.session_state.all_ratings
.setdefault(current_idx, {})` aliases the durable table entry, each
slider returns its staged widget value (or, on first render, the default
taken from the entry or 5), and `ratings_for_this_example[q_name] = ...`
writes through the alias into the table. The final
`st.session_state.all_ratings[current_idx] = ratings_for_this_example`
on submit re-inserts the same object. Staged slider state is one optional
integer per (dimension, candidate); reading `current_q_ratings["y1"]`
raises `KeyError` when that key is absent, hence the `Option` result. -/

/-- Staged slider widget state: dimension name to staged value, one
association list per candidate. -/
abbrev SliderState := List (String × Int)

/-- The per-quality iteration of the form body: `setdefault` the rating
entry, read the slider values (staged value if present, else the current
entry value, `KeyError` when the entry lacks the candidate key), and
assign the rating dict. -/
def renderQuality (s1 s2 : SliderState) (entry : RatingDict) (q : Quality) :
    Option RatingDict := do
  let current := match lookupAL entry q.name with
    | some r => r
    | none => ⟨some 5, some 5⟩
  let cy1 ← current.y1
  let cy2 ← current.y2
  let ry1 := (lookupAL s1 q.name).getD cy1
  let ry2 := (lookupAL s2 q.name).getD cy2
  return insertAL entry q.name ⟨some ry1, some ry2⟩

/-- One execution of the rating form body for example `idx`: fold the
per-quality step over the aliased table entry, then write the entry back
(the write-back happens through the alias regardless of `submitted`; the
submit branch's assignment re-inserts the same entry). -/
def formBody (qs : List Quality) (table : RatingTable) (idx : Nat)
    (s1 s2 : SliderState) (submitted : Bool) : Option RatingTable := do
  let entry0 := (lookupAL table idx).getD []
  let entry ← qs.foldlM (renderQuality s1 s2) entry0
  let table1 := insertAL table idx entry
  if submitted then return insertAL table1 idx entry else return table1

/-- `commitExample` (app.py lines 283-284): the submit handler's
assignment of the in-progress rating set into the durable table. -/
def commitExample (table : RatingTable) (idx : Nat) (scratch : RatingDict) :
    RatingTable :=
  insertAL table idx scratch

/-- The contribution of one quality dimension to a weighted score: its
weight times the stored candidate value when the dimension is present in
the rating set, 0 when it is absent. -/
def wContrib (d : RatingDict) (c : Candidate) (q : Quality) : Rat :=
  if (lookupAL d q.name).isSome then q.weight * (dictGet d q.name c : Int) else 0

/-- The decimal digit characters of `n`, most significant first (what
`Nat.toDigits 10` produces). -/
def natDigs (n : Nat) : List Char :=
  if _h : n < 10 then [Nat.digitChar n]
  else
    have : n / 10 < n := Nat.div_lt_self (by omega) (by omega)
    natDigs (n / 10) ++ [Nat.digitChar (n % 10)]

/-- Read a decimal digit string back as a number. -/
def evalDigs (l : List Char) : Nat :=
  l.foldl (fun a c => a * 10 + (c.toNat - 48)) 0

/-! ### Association-list lemmas -/

theorem insertAL_idem {α β : Type} [DecidableEq α] (l : List (α × β)) (k : α)
    (v : β) : insertAL (insertAL l k v) k v = insertAL l k v := by
  induction l with
  | nil => simp [insertAL]
  | cons p rest ih =>
    by_cases h : p.1 = k
    · simp [insertAL, h]
    · simp [insertAL, h, ih]

theorem lookupAL_insertAL {α β : Type} [DecidableEq α] (l : List (α × β))
    (k k' : α) (v : β) :
    lookupAL (insertAL l k v) k' = if k = k' then some v else lookupAL l k' := by
  induction l with
  | nil => simp [insertAL, lookupAL]
  | cons p rest ih =>
    by_cases h : p.1 = k
    · by_cases h' : k = k' <;> simp [insertAL, lookupAL, h, h', ih]
    · by_cases h' : p.1 = k' <;> by_cases h'' : k = k' <;>
        simp_all [insertAL, lookupAL]

/-! ### Decimal representation: `Nat.repr` is injective -/

theorem digitChar_eval : ∀ d : Nat, d < 10 → (Nat.digitChar d).toNat - 48 = d := by
  decide

theorem evalDigs_append_one (l : List Char) (c : Char) :
    evalDigs (l ++ [c]) = evalDigs l * 10 + (c.toNat - 48) := by
  simp [evalDigs, List.foldl_append]

theorem evalDigs_natDigs (n : Nat) : evalDigs (natDigs n) = n := by
  induction n using Nat.strong_induction_on with
  | _ n ih =>
    rw [natDigs]
    split
    · next h =>
      simpa [evalDigs] using digitChar_eval n h
    · next h =>
      have hdiv : n / 10 < n := Nat.div_lt_self (by omega) (by omega)
      rw [evalDigs_append_one, ih (n / 10) hdiv,
        digitChar_eval (n % 10) (Nat.mod_lt n (by omega))]
      omega

theorem natDigs_injective : Function.Injective natDigs := by
  intro m k h
  have := evalDigs_natDigs m
  rw [h, evalDigs_natDigs] at this
  omega

theorem toDigitsCore_eq_natDigs :
    ∀ (fuel n : Nat) (ds : List Char), n < fuel →
      Nat.toDigitsCore 10 fuel n ds = natDigs n ++ ds := by
  intro fuel
  induction fuel with
  | zero => omega
  | succ fuel ih =>
    intro n ds h
    rw [Nat.toDigitsCore]
    by_cases h0 : n / 10 = 0
    · have hn : n < 10 := by omega
      simp only [h0, if_true]
      rw [natDigs, dif_pos hn, Nat.mod_eq_of_lt hn]
      rfl
    · have hn : ¬n < 10 := fun hlt => h0 (Nat.div_eq_of_lt hlt)
      simp only [h0, if_false]
      have hfuel : n / 10 < fuel := by
        have : n / 10 < n := Nat.div_lt_self (by omega) (by omega)
        omega
      rw [ih (n / 10) _ hfuel]
      conv_rhs => rw [natDigs]
      rw [dif_neg hn]
      simp [List.append_assoc]

theorem natRepr_injective : Function.Injective Nat.repr := by
  intro m k h
  unfold Nat.repr at h
  rw [List.asString_inj, Nat.toDigits, Nat.toDigits,
    toDigitsCore_eq_natDigs _ _ _ (Nat.lt_succ_self m),
    toDigitsCore_eq_natDigs _ _ _ (Nat.lt_succ_self k)] at h
  simp only [List.append_nil] at h
  exact natDigs_injective h

theorem doc_id_time_injective (u : String) (n1 n2 : Nat)
    (h : doc_id_of u n1 = doc_id_of u n2) : n1 = n2 := by
  apply natRepr_injective
  unfold doc_id_of at h
  have hd := congrArg String.data h
  simp only [String.data_append, List.append_assoc] at hd
  have h2 := List.append_cancel_left hd
  have h3 := List.append_cancel_left h2
  exact String.ext h3

/-! ### Weighted-score and aggregation lemmas -/

theorem weightedScore_cons (q : Quality) (qs : List Quality) (d : RatingDict)
    (c : Candidate) :
    weightedScore (q :: qs) d c = wContrib d c q + weightedScore qs d c := by
  by_cases h : (lookupAL d q.name).isSome <;>
    simp [weightedScore, wContrib, h, List.filter_cons]

theorem weightedScore_eq_sum (qs : List Quality) (d : RatingDict) (c : Candidate) :
    weightedScore qs d c = (qs.map (wContrib d c)).sum := by
  induction qs with
  | nil => simp [weightedScore]
  | cons q qs ih => rw [weightedScore_cons, ih]; simp

theorem hasValidRating_nil (qs : List Quality) : hasValidRating qs [] = false := by
  simp [hasValidRating]
  intro q _
  induction qs with
  | nil => simp [lookupAL]
  | cons _ _ _ => simp [lookupAL]

theorem exampleTotals_eq (qs : List Quality) (d : RatingDict) :
    exampleTotals qs d =
      (weightedScore qs d .y1, weightedScore qs d .y2, hasValidRating qs d) := by
  suffices h : ∀ (a1 a2 : Rat) (b : Bool),
      qs.foldl
        (fun acc q =>
          match lookupAL d q.name with
          | some r => (acc.1 + q.weight * ((r.y1.getD 0 : Int) : Rat),
                       acc.2.1 + q.weight * ((r.y2.getD 0 : Int) : Rat), true)
          | none => acc) (a1, a2, b) =
        (a1 + weightedScore qs d .y1, a2 + weightedScore qs d .y2,
          b || hasValidRating qs d) by
    simpa [exampleTotals] using h 0 0 false
  induction qs with
  | nil =>
    intro a1 a2 b
    simp [weightedScore, hasValidRating]
  | cons q qs ih =>
    intro a1 a2 b
    rw [List.foldl_cons]
    cases hq : lookupAL d q.name with
    | none =>
      simp only [hq]
      rw [ih, weightedScore_cons, weightedScore_cons]
      simp [wContrib, hq, hasValidRating]
    | some r =>
      simp only [hq]
      rw [ih, weightedScore_cons, weightedScore_cons]
      simp only [wContrib, hq, Option.isSome_some, if_true, dictGet,
        Rating.val, hasValidRating, List.any_cons, Bool.true_or,
        Bool.or_true, Prod.mk.injEq]
      refine ⟨by ring, by ring, by simp⟩

theorem calcFold_eq (qs : List Quality) (table : RatingTable) :
    ∀ a : Rat × Rat × Nat,
      table.foldl (calcStep qs) a =
        (a.1 + ((table.filter fun p => hasValidRating qs p.2).map
            (fun p => weightedScore qs p.2 .y1)).sum,
         a.2.1 + ((table.filter fun p => hasValidRating qs p.2).map
            (fun p => weightedScore qs p.2 .y2)).sum,
         a.2.2 + (table.filter fun p => hasValidRating qs p.2).length) := by
  induction table with
  | nil => intro a; simp
  | cons p table ih =>
    intro a
    rw [List.foldl_cons]
    by_cases hv : hasValidRating qs p.2 = true
    · have hne : ¬p.2 = [] := by
        intro h0
        rw [h0, hasValidRating_nil] at hv
        exact Bool.false_ne_true hv
      have hstep : calcStep qs a p =
          (a.1 + weightedScore qs p.2 .y1, a.2.1 + weightedScore qs p.2 .y2,
            a.2.2 + 1) := by
        simp [calcStep, hne, exampleTotals_eq, hv]
      rw [hstep, ih, List.filter_cons_of_pos (by simpa using hv)]
      simp only [List.map_cons, List.sum_cons, List.length_cons, Prod.mk.injEq]
      refine ⟨by ring, by ring, by omega⟩
    · have hstep : calcStep qs a p = a := by
        by_cases hne : p.2 = []
        · simp [calcStep, hne]
        · simp [calcStep, hne, exampleTotals_eq, hv]
      rw [hstep, ih, List.filter_cons_of_neg (by simpa using hv)]

/-! ### Claim theorems -/

/-- C1: for every catalog and rating set, the weighted score of a candidate
is the sum over dimensions of weight times the candidate's rating, where
dimensions absent from the rating set contribute 0 and no renormalization
by covered weight happens. For the two-dimension catalog with weights 0.6
and 0.4 and ratings dimA: y1=10, y2=1 and dimB: y1=5, y2=5, the score is
8.0 for y1 and 2.6 for y2; rating only dimA (weight 0.6) at 10 gives the
deflated score 6.0, not a renormalized 10.0. -/
theorem C1_weighted_score_sum :
    (∀ (qs : List Quality) (d : RatingDict) (c : Candidate),
        weightedScore qs d c = (qs.map (wContrib d c)).sum) ∧
    weightedScore [⟨"dimA", 0.6, 1, 10⟩, ⟨"dimB", 0.4, 1, 10⟩]
      [("dimA", ⟨some 10, some 1⟩), ("dimB", ⟨some 5, some 5⟩)] .y1 = 8 ∧
    weightedScore [⟨"dimA", 0.6, 1, 10⟩, ⟨"dimB", 0.4, 1, 10⟩]
      [("dimA", ⟨some 10, some 1⟩), ("dimB", ⟨some 5, some 5⟩)] .y2 = 2.6 ∧
    weightedScore [⟨"dimA", 0.6, 1, 10⟩, ⟨"dimB", 0.4, 1, 10⟩]
      [("dimA", ⟨some 10, some 10⟩)] .y1 = 6 := by
  refine ⟨weightedScore_eq_sum, ?_, ?_, ?_⟩ <;>
    · simp [weightedScore, lookupAL, dictGet, Rating.val]
      norm_num

/-- C6: starting from index 0, any sequence of goPrevious/goNext actions
over `n ≥ 1` examples keeps the index within `[0, n-1]`; goPrevious at 0
and goNext at `n-1` are no-ops and neither is an error. -/
theorem C6_navigation_bounds (n : Nat) (acts : List NavAction) (h : 1 ≤ n) :
    runNav n 0 acts ≤ n - 1 ∧ goPrevious 0 = 0 ∧ goNext n (n - 1) = n - 1 := by
  refine ⟨?_, rfl, by simp [goNext]⟩
  have inv : ∀ (l : List NavAction) (idx : Nat),
      idx ≤ n - 1 → runNav n idx l ≤ n - 1 := by
    intro l
    induction l with
    | nil => intro idx hidx; exact hidx
    | cons a l ih =>
      intro idx hidx
      have happ : applyNav n idx a ≤ n - 1 := by
        cases a <;> simp only [applyNav, goPrevious, goNext] <;> split <;> omega
      simpa [runNav, List.foldl_cons] using ih (applyNav n idx a) happ
  exact inv acts 0 (by omega)

/-- C6 witness: over 3 examples, a concrete action sequence from index 0
stays within bounds and the boundary cases are no-ops. -/
theorem C6_navigation_bounds_witness :
    1 ≤ 3 ∧ (runNav 3 0 [.prev, .next, .next, .next, .prev] ≤ 3 - 1 ∧
      goPrevious 0 = 0 ∧ goNext 3 (3 - 1) = 3 - 1) :=
  ⟨by decide, C6_navigation_bounds 3 [.prev, .next, .next, .next, .prev] (by decide)⟩

/-- C7: the corpus average on an empty table, or on any table none of whose
examples counts as rated, is exactly (0.0, 0.0, 0) with no error; on a
table with exactly one fully-rated example it is that example's own
weighted scores with `countRated = 1`. -/
theorem C7_corpus_average (qs : List Quality) :
    calculate_average_scores qs [] = (0, 0, 0) ∧
    (∀ table : RatingTable, (∀ p ∈ table, hasValidRating qs p.2 = false) →
        calculate_average_scores qs table = (0, 0, 0)) ∧
    (∀ (i : Nat) (d : RatingDict), qs ≠ [] →
        (∀ q ∈ qs, (lookupAL d q.name).isSome = true) →
        calculate_average_scores qs [(i, d)] =
          (weightedScore qs d .y1, weightedScore qs d .y2, 1)) := by
  refine ⟨by simp [calculate_average_scores], ?_, ?_⟩
  · intro table hall
    have hfil : table.filter (fun p => hasValidRating qs p.2) = [] := by
      simp only [List.filter_eq_nil_iff]
      intro p hp
      simp [hall p hp]
    simp [calculate_average_scores, calcFold_eq, hfil]
  · intro i d hqs hall
    have hv : hasValidRating qs d = true := by
      cases qs with
      | nil => exact absurd rfl hqs
      | cons q qs' =>
        have := hall q (List.mem_cons_self q qs')
        simp [hasValidRating, this]
    have hne : ¬d = [] := by
      intro h0
      rw [h0, hasValidRating_nil] at hv
      exact Bool.false_ne_true hv
    simp [calculate_average_scores, calcStep, hne, exampleTotals_eq, hv, div_one]

/-- C7 witness: the shipped catalog, a table whose only entry mentions no
catalog dimension, and a table with one fully-rated example. -/
theorem C7_corpus_average_witness :
    calculate_average_scores qualities [(0, [("bogus", ⟨some 9, none⟩)])] =
      (0, 0, 0) ∧
    calculate_average_scores qualities
      [(0, [("Adequacy (Meaning Preservation)", ⟨some 10, some 2⟩),
            ("Fluency", ⟨some 9, some 3⟩),
            ("Grammatical Correctness", ⟨some 8, some 4⟩),
            ("Style Consistency", ⟨some 7, some 5⟩),
            ("Conciseness", ⟨some 6, some 6⟩)])] =
      (weightedScore qualities
        [("Adequacy (Meaning Preservation)", ⟨some 10, some 2⟩),
         ("Fluency", ⟨some 9, some 3⟩),
         ("Grammatical Correctness", ⟨some 8, some 4⟩),
         ("Style Consistency", ⟨some 7, some 5⟩),
         ("Conciseness", ⟨some 6, some 6⟩)] .y1,
       weightedScore qualities
        [("Adequacy (Meaning Preservation)", ⟨some 10, some 2⟩),
         ("Fluency", ⟨some 9, some 3⟩),
         ("Grammatical Correctness", ⟨some 8, some 4⟩),
         ("Style Consistency", ⟨some 7, some 5⟩),
         ("Conciseness", ⟨some 6, some 6⟩)] .y2, 1) :=
  ⟨(C7_corpus_average qualities).2.1 _ (by decide),
   (C7_corpus_average qualities).2.2 0 _ (by decide) (by decide)⟩

/-- C8: committing the same scratch rating set twice for an index leaves
the rating table exactly as committing it once. -/
theorem C8_commit_idempotent (table : RatingTable) (idx : Nat)
    (scratch : RatingDict) :
    commitExample (commitExample table idx scratch) idx scratch =
      commitExample table idx scratch :=
  insertAL_idem table idx scratch

/-- C9: the shipped catalog's weights sum to 1.0, and for any catalog whose
weights sum to 1.0, an example rated on every dimension with every value
equal to a common maximum M has weighted score exactly M. -/
theorem C9_full_marks_score :
    (qualities.map Quality.weight).sum = 1 ∧
    (∀ (qs : List Quality) (M : Int) (d : RatingDict) (c : Candidate),
        (qs.map Quality.weight).sum = 1 →
        (∀ q ∈ qs, lookupAL d q.name = some ⟨some M, some M⟩) →
        weightedScore qs d c = (M : Rat)) := by
  constructor
  · simp [qualities]
    norm_num
  · intro qs M d c hsum hall
    rw [weightedScore_eq_sum]
    have hmap : qs.map (wContrib d c) = qs.map (fun q => q.weight * (M : Rat)) := by
      apply List.map_congr_left
      intro q hq
      have hl := hall q hq
      cases c <;> simp [wContrib, hl, dictGet, Rating.val]
    rw [hmap, List.sum_map_mul_right, hsum, one_mul]

/-- C9 witness: every dimension of the shipped catalog rated 10 for a
candidate gives weighted score 10. -/
theorem C9_full_marks_score_witness :
    weightedScore qualities
      [("Adequacy (Meaning Preservation)", ⟨some 10, some 10⟩),
       ("Fluency", ⟨some 10, some 10⟩),
       ("Grammatical Correctness", ⟨some 10, some 10⟩),
       ("Style Consistency", ⟨some 10, some 10⟩),
       ("Conciseness", ⟨some 10, some 10⟩)] .y1 = ((10 : Int) : Rat) :=
  C9_full_marks_score.2 qualities 10 _ .y1 C9_full_marks_score.1 (by decide)

/-- C2 counterexample: executing the rating form body for example 0 with a
staged Fluency slider value 9 and without pressing "Submit Ratings for
This Example" (`submitted = false`) changes the durable table entry for
index 0 — the staged value 9 and default ratings 5 are written into the
table — refuting the claim that the table entry changes only when
commitExample is performed. -/
theorem C2_counterexample :
    formBody qualities [(0, [("Fluency", ⟨some 3, some 3⟩)])] 0
        [("Fluency", 9)] [] false ≠
      some [(0, [("Fluency", ⟨some 3, some 3⟩)])] ∧
    formBody qualities [(0, [("Fluency", ⟨some 3, some 3⟩)])] 0
        [("Fluency", 9)] [] false =
      some [(0, [("Fluency", ⟨some 9, some 3⟩),
                 ("Adequacy (Meaning Preservation)", ⟨some 5, some 5⟩),
                 ("Grammatical Correctness", ⟨some 5, some 5⟩),
                 ("Style Consistency", ⟨some 5, some 5⟩),
                 ("Conciseness", ⟨some 5, some 5⟩)])] :=
  ⟨by decide, by decide⟩

/-- C2 amended: moving a slider alone runs no script code and so cannot
change the table, but every execution of the rating form body writes the
current slider values through the `setdefault` alias into the durable
table entry — the resulting table is the same whether or not the
per-example submit button was pressed. -/
theorem C2_form_body_commit_independent (qs : List Quality)
    (table : RatingTable) (idx : Nat) (s1 s2 : SliderState) (b : Bool) :
    formBody qs table idx s1 s2 b = formBody qs table idx s1 s2 true := by
  cases b
  · simp only [formBody]
    cases h : qs.foldlM (renderQuality s1 s2) ((lookupAL table idx).getD []) with
    | none => rfl
    | some entry => simp [h, insertAL_idem]
  · rfl

/-- C3: submission preparation fails with the missing-username error
exactly when the stripped username is empty; it fails for `""` and for
`"   "`, while `"  Alice  "` with a non-empty rating table succeeds and
the persisted username is the stripped string `"Alice"`. -/
theorem C3_username_validation :
    (∀ (u : String) (table : RatingTable) (now : Nat),
        prepareSubmission u table now = .error .missingUsername ↔
          pyStrip u = "") ∧
    prepareSubmission "" [(0, [("Fluency", ⟨some 7, some 3⟩)])] 0 =
      .error .missingUsername ∧
    prepareSubmission "   " [(0, [("Fluency", ⟨some 7, some 3⟩)])] 0 =
      .error .missingUsername ∧
    prepareSubmission "  Alice  " [(0, [("Fluency", ⟨some 7, some 3⟩)])] 5 =
      .ok ⟨"alice_5", "Alice", [("0", [("Fluency", ⟨some 7, some 3⟩)])]⟩ := by
  refine ⟨?_, rfl, rfl, rfl⟩
  intro u table now
  constructor
  · intro h
    by_contra hne
    rw [prepareSubmission, if_neg hne] at h
    have hu : ¬u = "" := by
      intro h0
      subst h0
      exact hne rfl
    simp only [save_to_firestore, if_neg hu] at h
    split at h
    · exact SubmitError.noConfusion (Except.error.inj h)
    · exact Except.noConfusion h
  · intro h
    rw [prepareSubmission, if_pos h]

/-- C3 witness: the missing-username equivalence at the concrete username
`" Bo b "` with a concrete table. -/
theorem C3_username_validation_witness :
    prepareSubmission " Bo b " [(2, [("Fluency", ⟨some 6, some 6⟩)])] 9 =
        .error .missingUsername ↔
      pyStrip " Bo b " = "" :=
  C3_username_validation.1 " Bo b " [(2, [("Fluency", ⟨some 6, some 6⟩)])] 9

/-- C4: when every rating set in the table is empty (even with entries for
visited examples) and the username passes validation, submission
preparation fails with the empty-submission error and no document is
produced; when preparation succeeds, the persisted ratings are exactly the
table entries with a non-empty rating set (keys stringified). -/
theorem C4_empty_submission (u : String) (table : RatingTable) (now : Nat) :
    ((∀ p ∈ table, p.2 = ([] : RatingDict)) → ¬pyStrip u = "" →
        prepareSubmission u table now = .error .emptySubmission) ∧
    (∀ doc : SavedDoc, prepareSubmission u table now = .ok doc →
        doc.ratings =
          (table.filter (fun p => ¬p.2 = [])).map
            (fun p => (Nat.repr p.1, p.2))) := by
  constructor
  · intro hall hne
    rw [prepareSubmission, if_neg hne]
    have hu : ¬u = "" := by
      intro h0
      subst h0
      exact hne rfl
    have hfil : table.filter (fun p => ¬p.2 = []) = [] := by
      rw [List.filter_eq_nil_iff]
      intro p hp
      simp [hall p hp]
    simp only [save_to_firestore, if_neg hu, hfil, List.map_nil]
    rfl
  · intro doc h
    rw [prepareSubmission] at h
    split at h
    · exact Except.noConfusion h
    · simp only [save_to_firestore] at h
      split at h
      · exact Except.noConfusion h
      · split at h
        · exact Except.noConfusion h
        · rw [← Except.ok.inj h]

/-- C4 witness: a table of two visited-but-unrated examples fails with the
empty-submission error, and a successful submission persists exactly the
non-empty entries. -/
theorem C4_empty_submission_witness :
    prepareSubmission "Bob" [(0, []), (1, [])] 7 = .error .emptySubmission ∧
    (⟨"alice_3", "Alice", [("1", [("Fluency", ⟨some 2, some 2⟩)])]⟩ :
        SavedDoc).ratings =
      (([(0, []), (1, [("Fluency", ⟨some 2, some 2⟩)])] :
          RatingTable).filter (fun p => ¬p.2 = [])).map
        (fun p => (Nat.repr p.1, p.2)) :=
  ⟨(C4_empty_submission "Bob" [(0, []), (1, [])] 7).1 (by decide) (by decide),
   (C4_empty_submission "Alice" [(0, []), (1, [("Fluency", ⟨some 2, some 2⟩)])]
      3).2 _ rfl⟩

/-- C5 counterexample: two different submissions by the same user at the
same integer second both succeed and are stored under the same key
"alice_100" — the key is not unique per call, so the second silently
overwrites the first. -/
theorem C5_counterexample :
    prepareSubmission "Alice" [(0, [("Fluency", ⟨some 9, some 2⟩)])] 100 =
      .ok ⟨"alice_100", "Alice", [("0", [("Fluency", ⟨some 9, some 2⟩)])]⟩ ∧
    prepareSubmission "Alice" [(0, [("Fluency", ⟨some 1, some 8⟩)])] 100 =
      .ok ⟨"alice_100", "Alice", [("0", [("Fluency", ⟨some 1, some 8⟩)])]⟩ ∧
    (⟨"alice_100", "Alice", [("0", [("Fluency", ⟨some 9, some 2⟩)])]⟩ :
        SavedDoc) ≠
      ⟨"alice_100", "Alice", [("0", [("Fluency", ⟨some 1, some 8⟩)])]⟩ :=
  ⟨rfl, rfl, by decide⟩

/-- C5 amended: every successful submission's key is derived from the
normalized (underscored, lowercased, stripped) username and the integer
current time, and two submissions by the same user have the same key
exactly when their integer-second timestamps coincide: distinct seconds
give distinct keys, but same-second calls share a key and overwrite. -/
theorem C5_submission_key (u : String) (t1 t2 : RatingTable) (n1 n2 : Nat)
    (d1 d2 : SavedDoc) (h1 : prepareSubmission u t1 n1 = .ok d1)
    (h2 : prepareSubmission u t2 n2 = .ok d2) :
    d1.doc_id = doc_id_of u n1 ∧ d2.doc_id = doc_id_of u n2 ∧
    (d1.doc_id = d2.doc_id ↔ n1 = n2) := by
  have key : ∀ (t : RatingTable) (n : Nat) (d : SavedDoc),
      prepareSubmission u t n = .ok d → d.doc_id = doc_id_of u n := by
    intro t n d h
    rw [prepareSubmission] at h
    split at h
    · exact Except.noConfusion h
    · simp only [save_to_firestore] at h
      split at h
      · exact Except.noConfusion h
      · split at h
        · exact Except.noConfusion h
        · rw [← Except.ok.inj h]
  have k1 := key t1 n1 d1 h1
  have k2 := key t2 n2 d2 h2
  refine ⟨k1, k2, ?_, ?_⟩
  · intro h
    exact doc_id_time_injective u n1 n2 (k1 ▸ k2 ▸ h)
  · intro h
    rw [k1, k2, h]

/-- C5 amended witness: submissions by Alice at seconds 100 and 101 carry
the expected keys, which differ because the timestamps differ. -/
theorem C5_submission_key_witness :
    (⟨"alice_100", "Alice", [("0", [("Fluency", ⟨some 9, some 2⟩)])]⟩ :
        SavedDoc).doc_id = doc_id_of "Alice" 100 ∧
    (⟨"alice_101", "Alice", [("0", [("Fluency", ⟨some 1, some 8⟩)])]⟩ :
        SavedDoc).doc_id = doc_id_of "Alice" 101 ∧
    ((⟨"alice_100", "Alice", [("0", [("Fluency", ⟨some 9, some 2⟩)])]⟩ :
        SavedDoc).doc_id =
      (⟨"alice_101", "Alice", [("0", [("Fluency", ⟨some 1, some 8⟩)])]⟩ :
        SavedDoc).doc_id ↔ (100 : Nat) = 101) :=
  C5_submission_key "Alice" [(0, [("Fluency", ⟨some 9, some 2⟩)])]
    [(0, [("Fluency", ⟨some 1, some 8⟩)])] 100 101 _ _ rfl rfl

/-- C10: an example counts toward countRated (and contributes to the sums)
exactly when its rating set mentions at least one catalog dimension name:
the rated count is the number of such entries, prepending an entry whose
set mentions no catalog name — even a non-empty one — leaves the whole
result unchanged, and a rating entry missing a candidate value scores as
if that value were 0. -/
theorem C10_valid_rating_filter (qs : List Quality) :
    (∀ table : RatingTable,
        (calculate_average_scores qs table).2.2 =
          (table.filter (fun p => hasValidRating qs p.2)).length) ∧
    (∀ (table : RatingTable) (i : Nat) (d : RatingDict),
        hasValidRating qs d = false →
        calculate_average_scores qs ((i, d) :: table) =
          calculate_average_scores qs table) ∧
    (∀ (d : RatingDict) (k : String) (o : Option Int),
        weightedScore qs (insertAL d k ⟨none, o⟩) .y1 =
          weightedScore qs (insertAL d k ⟨some 0, o⟩) .y1 ∧
        weightedScore qs (insertAL d k ⟨o, none⟩) .y2 =
          weightedScore qs (insertAL d k ⟨o, some 0⟩) .y2) := by
  refine ⟨?_, ?_, ?_⟩
  · intro table
    simp only [calculate_average_scores, calcFold_eq]
    split <;> simp
  · intro table i d hv
    have hstep : calcStep qs (0, 0, 0) (i, d) = (0, 0, 0) := by
      by_cases hne : d = []
      · simp [calcStep, hne]
      · simp [calcStep, hne, exampleTotals_eq, hv]
    simp only [calculate_average_scores, List.foldl_cons, hstep]
  · intro d k o
    constructor <;>
    · rw [weightedScore_eq_sum, weightedScore_eq_sum]
      congr 1
      apply List.map_congr_left
      intro q _
      by_cases hk : k = q.name <;>
        simp [wContrib, dictGet, lookupAL_insertAL, hk, Rating.val]

/-- C10 witness: prepending an entry that mentions only a name outside the
shipped catalog leaves the corpus averages and count unchanged. -/
theorem C10_valid_rating_filter_witness :
    calculate_average_scores qualities
        ((5, [("bogus", ⟨some 9, some 9⟩)]) ::
          [(0, [("Fluency", ⟨some 4, some 4⟩)])]) =
      calculate_average_scores qualities [(0, [("Fluency", ⟨some 4, some 4⟩)])] :=
  (C10_valid_rating_filter qualities).2.1 _ 5 _ (by decide)

end TranslateApp
